import Mathlib

/-!
Shallow embedding of the line-based unit-conversion pipeline of
`ph_switch_mb` (files `src/ph_switch_mb/calculator.py` and
`src/ph_switch_mb/app.py`).

The external unit-conversion backend (`ph_units.parser.parse_input`,
`ph_units.converter.convert`), the Python built-in `float()` string
parser and the Python numeric formatter `format(value, ",.12g")` are
black boxes from the point of view of this repository; they are
modelled as the fields of an abstract `Backend` structure that every
definition and theorem is parameterised over.

Python floats are modelled by the inductive `PyFloat α`: the payload
type `α` of the `finite` constructor is abstract (the pipeline never
inspects a finite float, it only hands it to the backend's formatter),
while `nan` and the two infinities are explicit constructors because
`_format_value` branches on `math.isnan` / `math.isinf`.

Strings are Lean `String`s; character classes (`str.strip` whitespace,
the regex word class `\w` of `\b`, the `rstrip(".,;")` set) are the
ASCII character sets used by the Python code.
-/

namespace PhSwitchMb

/-- Whitespace as stripped by Python `str.strip()` (ASCII range). -/
def pyIsSpace (c : Char) : Bool :=
  c == ' ' || c == '\t' || c == '\n' || c == '\r' || c == '\x0b' || c == '\x0c'

/-- The fixed punctuation set of `rstrip(".,;")` in `_convert_expression`. -/
def isPunctChar (c : Char) : Bool :=
  c == '.' || c == ',' || c == ';'

/-- Word characters for the regex boundary `\b` (ASCII `\w`). -/
def isWordChar (c : Char) : Bool :=
  c.isAlphanum || c == '_'

/-- List-level `str.strip()`: drop leading and trailing whitespace. -/
def listStrip (l : List Char) : List Char :=
  ((l.dropWhile pyIsSpace).reverse.dropWhile pyIsSpace).reverse

/-- Python `s.strip()`. -/
def pyStrip (s : String) : String :=
  String.mk (listStrip s.data)

/-- List-level `rstrip(".,;")`: drop every trailing `.`, `,` or `;`. -/
def listRstripPunct (l : List Char) : List Char :=
  (l.reverse.dropWhile isPunctChar).reverse

/-- Python `s.rstrip(".,;")` as used on the source unit and target text. -/
def pyRstripPunct (s : String) : String :=
  String.mk (listRstripPunct s.data)

/-- Case-insensitive match of one alternative of `_CONNECTOR_PATTERN`:
the two characters spell `to` or `as` under `re.IGNORECASE`. -/
def connPair (c1 c2 : Char) : Bool :=
  (c1.toLower == 't' && c2.toLower == 'o') || (c1.toLower == 'a' && c2.toLower == 's')

/-- The `\b` boundary on the left of a connector candidate at `i`: the
connector characters are word characters, so the boundary holds exactly
when `i` is the start of the string or the previous character is not a
word character. -/
def noWordBefore (cs : List Char) (i : Nat) : Bool :=
  if i = 0 then true
  else
    match cs.get? (i-1) with
    | some p => !isWordChar p
    | none => true

/-- The `\b` boundary on the right of a connector candidate at `i`:
position `i+2` is the end of the string or holds a non-word character. -/
def noWordAfter (cs : List Char) (i : Nat) : Bool :=
  match cs.get? (i+2) with
  | some n => !isWordChar n
  | none => true

/-- The regex `\b(?:to|as)\b` (with `re.IGNORECASE`) matches the
character list `cs` at position `i`: positions `i, i+1` spell a
connector word and both sides sit on a `\b` word boundary. -/
def connMatchAt (cs : List Char) (i : Nat) : Bool :=
  match cs.get? i, cs.get? (i+1) with
  | some c1, some c2 => connPair c1 c2 && noWordBefore cs i && noWordAfter cs i
  | _, _ => false

/-- Left-to-right scan for the first regex match, starting at index `i`
with `fuel` positions still to inspect. -/
def firstConnFrom (cs : List Char) : Nat → Nat → Option Nat
  | _, 0 => none
  | i, fuel + 1 => if connMatchAt cs i then some i else firstConnFrom cs (i+1) fuel

/-- Position of the leftmost match of `\b(?:to|as)\b` in `cs`, if any. -/
def firstConnPos (cs : List Char) : Option Nat :=
  firstConnFrom cs 0 cs.length

/-- Python `_CONNECTOR_PATTERN.split(expression, maxsplit=1)`: split on
the first connector match only; the match itself (two characters) is
consumed, and with no match the list is the whole string alone. -/
def connectorSplit (s : String) : List String :=
  match firstConnPos s.data with
  | some i => [String.mk (s.data.take i), String.mk (s.data.drop (i+2))]
  | none => [s]

/-- Python float values as seen by the pipeline: `math.isnan` /
`math.isinf` distinguish `nan` and the two infinities; the finite
payload `α` is abstract. `inf true` is negative infinity. -/
inductive PyFloat (α : Type) : Type where
  | nan : PyFloat α
  | inf : Bool → PyFloat α
  | finite : α → PyFloat α
deriving DecidableEq, Repr

/-- Embedding of `math.isnan`. -/
def PyFloat.isNaN {α : Type} : PyFloat α → Bool
  | .nan => true
  | _ => false

/-- Embedding of `math.isinf`. -/
def PyFloat.isInf {α : Type} : PyFloat α → Bool
  | .inf _ => true
  | _ => false

/-- The exceptions distinguished by `render_results`' handlers:
`ValueError` (raised by `_convert_expression` itself and by `float()`),
the backend's `UnitTypeNameNotFound`, and any other `Exception` the
backend may raise. -/
inductive PyError : Type where
  | valueError : PyError
  | unitTypeNameNotFound : PyError
  | otherError : PyError
deriving DecidableEq, Repr

/-- The external capabilities consumed by `calculator.py`, as one
abstract backend:
`parse_input` is `ph_units.parser.parse_input` returning
`(value_text, source_unit)` with either half possibly absent;
`float_of_string` is Python `float(value_text)` (`none` models the
`ValueError` of an invalid numeric literal);
`convert` is `ph_units.converter.convert`, which can return a value,
return `None`, or raise;
`fmt` is Python `format(value, spec)` on a finite float. -/
structure Backend (α : Type) : Type where
  parse_input : String → Option String × Option String
  float_of_string : String → Option (PyFloat α)
  convert : PyFloat α → String → String → Except PyError (Option (PyFloat α))
  fmt : String → α → String

/-- The module constant `_FORMAT_SPEC = ",.12g"`. -/
def FORMAT_SPEC : String := ",.12g"

/-- Python `formatted.endswith(".")`. -/
def endsWithDot (s : String) : Bool :=
  match s.data.getLast? with
  | some c => c == '.'
  | none => false

/-- Embedding of `_format_value`: special floats are rendered by Python
`str()` (which yields `"nan"`, `"inf"`, `"-inf"`); a finite float is
rendered by `format(value, _FORMAT_SPEC)` and a trailing decimal point,
if any, is removed (`formatted[:-1]`). -/
def format_value {α : Type} (fmt : String → α → String) : PyFloat α → String
  | .nan => "nan"
  | .inf b => if b then "-inf" else "inf"
  | .finite x =>
      let formatted := fmt FORMAT_SPEC x
      if endsWithDot formatted then String.mk formatted.data.dropLast else formatted

/-- Tail of `_convert_expression` after `parse_input` succeeded
(calculator.py lines 58-75): strip trailing punctuation off the source
unit and the target text, check both are still non-empty, parse the
numeric literal with `float()`, and call the backend's `convert`; a
`None` result is a `ValueError`, a raised backend error propagates. -/
def convertParsed {α : Type} (B : Backend α)
    (value_text source_unit0 target_text0 : String) : Except PyError (PyFloat α) :=
  let source_unit := pyRstripPunct source_unit0
  let target_text := pyRstripPunct target_text0
  if source_unit = "" then .error .valueError
  else if target_text = "" then .error .valueError
  else
    match B.float_of_string value_text with
    | none => .error .valueError
    | some numeric_value =>
      match B.convert numeric_value source_unit target_text with
      | .error e => .error e
      | .ok none => .error .valueError
      | .ok (some result) => .ok result

/-- Middle of `_convert_expression` after the connector split succeeded
(calculator.py lines 49-57): strip both halves, require both non-empty,
and require `parse_input` to deliver a non-empty value text and a
present source unit (`if not value_text or source_unit is None`). -/
def convertHalves {α : Type} (B : Backend α)
    (source_text0 target_text0 : String) : Except PyError (PyFloat α) :=
  let source_text := pyStrip source_text0
  let target_text := pyStrip target_text0
  if source_text = "" ∨ target_text = "" then .error .valueError
  else
    match B.parse_input source_text with
    | (some value_text, some source_unit) =>
      if value_text = "" then .error .valueError
      else convertParsed B value_text source_unit target_text
    | _ => .error .valueError

/-- Embedding of `_convert_expression`: split on the first connector
(`_CONNECTOR_PATTERN.split(expression, maxsplit=1)`), require exactly
two parts, then continue with `convertHalves`/`convertParsed`.  Every
guard of the Python function raises `ValueError`; a backend exception
propagates (to be caught by `render_results`). -/
def convert_expression {α : Type} (B : Backend α) (expression : String) :
    Except PyError (PyFloat α) :=
  match connectorSplit expression with
  | [source_text0, target_text0] => convertHalves B source_text0 target_text0
  | _ => .error .valueError

/-- The body of the `for line in lines` loop of `render_results`: strip
the line, keep a blank line blank, and turn every error of
`_convert_expression` — `ValueError`, `UnitTypeNameNotFound` or any
other exception — into the empty output line. -/
def renderLine {α : Type} (B : Backend α) (line : String) : String :=
  let expression := pyStrip line
  if expression = "" then ""
  else
    match convert_expression B expression with
    | .error _ => ""
    | .ok value => format_value B.fmt value

/-- Embedding of `render_results`: one output line appended per input
line. -/
def render_results {α : Type} (B : Backend α) : List String → List String
  | [] => []
  | line :: rest => renderLine B line :: render_results B rest

/-- Line-break characters recognised by Python `str.splitlines()`. -/
def isLineBreakChar (c : Char) : Bool :=
  c == '\n' || c == '\r' || c == '\x0b' || c == '\x0c' ||
  c == Char.ofNat 0x1c || c == Char.ofNat 0x1d || c == Char.ofNat 0x1e ||
  c == Char.ofNat 0x85 || c == Char.ofNat 0x2028 || c == Char.ofNat 0x2029

/-- Worker for `str.splitlines()`: `acc` holds the current line's
characters in reverse; `skipLF` is set right after a `\r` was consumed
so that a directly following `\n` is part of the same `\r\n` break and
produces no extra line; no trailing empty line is produced for a
trailing break. -/
def splitlinesAux : Bool → List Char → List Char → List String
  | _, acc, [] => if acc.isEmpty then [] else [String.mk acc.reverse]
  | skipLF, acc, c :: rest =>
      if skipLF && c == '\n' then splitlinesAux false acc rest
      else if c = '\r' then String.mk acc.reverse :: splitlinesAux true [] rest
      else if isLineBreakChar c then String.mk acc.reverse :: splitlinesAux false [] rest
      else splitlinesAux false (c :: acc) rest

/-- Python `text.splitlines()`. -/
def pySplitlines (text : String) : List String :=
  splitlinesAux false [] text.data

/-- Embedding of `app.update_results`: split the full text into lines
and render them. -/
def update_results {α : Type} (B : Backend α) (text : String) : List String :=
  render_results B (pySplitlines text)

/-- A backend identical to `B` except that the parser reports the
source unit with the trailing punctuation `p` appended.  Used to state
that trailing punctuation on the parsed source-unit text is ignored.
Fields in order: `parse_input`, `float_of_string`, `convert`, `fmt`. -/
def punctUnitBackend {α : Type} (B : Backend α) (p : String) : Backend α :=
  ⟨fun s =>
      match B.parse_input s with
      | (v, some u) => (v, some (u ++ p))
      | (v, none) => (v, none),
   B.float_of_string, B.convert, B.fmt⟩

/-- A small concrete backend used to evaluate the pipeline on closed
inputs.  Fields in order: `parse_input`, `float_of_string`, `convert`,
`fmt`. -/
def demoBackend : Backend Nat :=
  ⟨fun s =>
      if s = "12 inches" then (some "12", some "inches")
      else if s = "5 m" then (some "5", some "m")
      else if s = "1 u" then (some "1", some "u")
      else if s = "9 x" then (some "9", some ".;,")
      else (none, none),
   fun t =>
      if t = "12" then some (.finite 12)
      else if t = "5" then some (.finite 5)
      else if t = "1" then some (.finite 1)
      else none,
   fun _ _ t =>
      if t = "mm" then .ok (some (.finite 304))
      else if t = "ft" then .ok (some (.finite 16))
      else if t = "nn" then .ok (some .nan)
      else .ok none,
   fun _ n => toString n⟩

/-! ### Basic lemmas about the rendering loop -/

instance {ε σ : Type} [DecidableEq ε] [DecidableEq σ] : DecidableEq (Except ε σ) := fun
  | .error a, .error b =>
      if h : a = b then .isTrue (by rw [h]) else .isFalse (by intro hc; cases hc; exact h rfl)
  | .error _, .ok _ => .isFalse (by intro hc; cases hc)
  | .ok _, .error _ => .isFalse (by intro hc; cases hc)
  | .ok a, .ok b =>
      if h : a = b then .isTrue (by rw [h]) else .isFalse (by intro hc; cases hc; exact h rfl)

/-- Unfold `renderLine` through its `let`. -/
theorem renderLine_def {α : Type} (B : Backend α) (line : String) :
    renderLine B line =
      if pyStrip line = "" then ""
      else
        match convert_expression B (pyStrip line) with
        | .error _ => ""
        | .ok value => format_value B.fmt value := rfl

/-- The rendering loop is the map of its body over the input lines. -/
theorem render_results_eq_map {α : Type} (B : Backend α) (lines : List String) :
    render_results B lines = lines.map (renderLine B) := by
  induction lines with
  | nil => rfl
  | cons l rest ih => simp [render_results, ih]

/-- A line whose evaluation raises is rendered as the empty string. -/
theorem renderLine_of_error {α : Type} (B : Backend α) (line : String) (e : PyError)
    (h : convert_expression B (pyStrip line) = .error e) : renderLine B line = "" := by
  rw [renderLine_def]
  by_cases hs : pyStrip line = ""
  · simp [hs]
  · simp [hs, h]

/-- A line stripping to the empty string is rendered as the empty string. -/
theorem renderLine_of_blank {α : Type} (B : Backend α) (line : String)
    (h : pyStrip line = "") : renderLine B line = "" := by
  rw [renderLine_def, if_pos h]

/-- Stripping a list of whitespace characters leaves nothing. -/
theorem listStrip_of_all_space (l : List Char) (h : ∀ c ∈ l, pyIsSpace c = true) :
    listStrip l = [] := by
  unfold listStrip
  rw [List.dropWhile_eq_nil_iff.mpr h]
  rfl

/-! ### Character-class facts and strip lemmas -/

/-- The three punctuation characters, by cases. -/
theorem punct_cases (c : Char) (h : isPunctChar c = true) :
    c = '.' ∨ c = ',' ∨ c = ';' := by
  unfold isPunctChar at h
  have h2 : (c = '.' ∨ c = ',') ∨ c = ';' := by simpa using h
  tauto

/-- Punctuation characters are not whitespace. -/
theorem punct_not_space (c : Char) (h : isPunctChar c = true) : pyIsSpace c = false := by
  rcases punct_cases c h with rfl | rfl | rfl <;> decide

/-- Punctuation characters are not word characters. -/
theorem punct_not_word (c : Char) (h : isPunctChar c = true) : isWordChar c = false := by
  rcases punct_cases c h with rfl | rfl | rfl <;> decide

/-- A connector word cannot start with a punctuation character. -/
theorem connPair_left_punct (c d : Char) (h : isPunctChar c = true) :
    connPair c d = false := by
  have key : ∀ x : Char, (x.toLower == 't') = false → (x.toLower == 'a') = false →
      connPair x d = false := by
    intro x h1 h2
    unfold connPair
    rw [h1, h2]
    rfl
  rcases punct_cases c h with rfl | rfl | rfl
  · exact key '.' (by decide) (by decide)
  · exact key ',' (by decide) (by decide)
  · exact key ';' (by decide) (by decide)

/-- A connector word cannot end with a punctuation character. -/
theorem connPair_right_punct (c d : Char) (h : isPunctChar d = true) :
    connPair c d = false := by
  have key : ∀ y : Char, (y.toLower == 'o') = false → (y.toLower == 's') = false →
      connPair c y = false := by
    intro y h1 h2
    unfold connPair
    rw [h1, h2]
    simp
  rcases punct_cases d h with rfl | rfl | rfl
  · exact key '.' (by decide) (by decide)
  · exact key ',' (by decide) (by decide)
  · exact key ';' (by decide) (by decide)

/-- The head of a `dropWhile` result never satisfies the predicate. -/
theorem head_dropWhile_false (p : Char → Bool) (l : List Char) (c : Char)
    (h : (l.dropWhile p).head? = some c) : p c = false := by
  induction l with
  | nil => cases h
  | cons a rest ih =>
    rw [List.dropWhile_cons] at h
    by_cases hp : p a = true
    · rw [if_pos hp] at h
      exact ih h
    · rw [if_neg hp] at h
      injection h with h2
      rw [← h2]
      exact Bool.not_eq_true _ ▸ hp

/-- A list whose head fails the predicate is untouched by `dropWhile`. -/
theorem dropWhile_eq_self_of_head (p : Char → Bool) (l : List Char)
    (h : ∀ c, l.head? = some c → p c = false) : l.dropWhile p = l := by
  cases l with
  | nil => rfl
  | cons a rest =>
    have ha : p a = false := h a rfl
    rw [List.dropWhile_cons, ha]
    simp

/-- `dropWhile` keeps any element that fails the predicate. -/
theorem dropWhile_ne_nil_of_mem (p : Char → Bool) (l : List Char) (c : Char)
    (hc : c ∈ l) (hp : p c = false) : l.dropWhile p ≠ [] := by
  intro h
  rw [List.dropWhile_eq_nil_iff] at h
  rw [h c hc] at hp
  cases hp

/-- A non-empty `dropWhile` result keeps the last element of the list. -/
theorem getLast?_dropWhile (p : Char → Bool) (l : List Char)
    (h : l.dropWhile p ≠ []) : (l.dropWhile p).getLast? = l.getLast? := by
  conv_rhs => rw [← List.takeWhile_append_dropWhile p l]
  rw [List.getLast?_append]
  cases hb : (l.dropWhile p).getLast? with
  | none => exact absurd (List.getLast?_eq_none_iff.mp hb) h
  | some x => rfl

/-- A list with no whitespace is untouched by stripping. -/
theorem listStrip_of_no_space (l : List Char) (h : ∀ c ∈ l, pyIsSpace c = false) :
    listStrip l = l := by
  unfold listStrip
  rw [dropWhile_eq_self_of_head pyIsSpace l (fun c hc => h c (by
    cases l with
    | nil => cases hc
    | cons a rest => injection hc with h2; rw [← h2]; exact List.mem_cons_self a rest))]
  rw [dropWhile_eq_self_of_head pyIsSpace l.reverse (fun c hc => h c (by
    rw [List.head?_reverse] at hc
    obtain ⟨ys, hys⟩ := List.getLast?_eq_some_iff.mp hc
    rw [hys]
    simp))]
  exact List.reverse_reverse l

/-- Stripping a list whose last element is not whitespace only strips
from the front, and keeps that last element. -/
theorem listStrip_of_last (l : List Char) (c : Char)
    (hl : l.getLast? = some c) (hc : pyIsSpace c = false) :
    listStrip l = l.dropWhile pyIsSpace ∧ (listStrip l).getLast? = some c := by
  have hmem : c ∈ l := by
    obtain ⟨ys, hys⟩ := List.getLast?_eq_some_iff.mp hl
    rw [hys]
    simp
  have hne : l.dropWhile pyIsSpace ≠ [] := dropWhile_ne_nil_of_mem pyIsSpace l c hmem hc
  have hlast : (l.dropWhile pyIsSpace).getLast? = some c := by
    rw [getLast?_dropWhile pyIsSpace l hne, hl]
  have hstrip : listStrip l = l.dropWhile pyIsSpace := by
    unfold listStrip
    rw [dropWhile_eq_self_of_head pyIsSpace (l.dropWhile pyIsSpace).reverse (fun d hd => by
      rw [List.head?_reverse, hlast] at hd
      injection hd with h2
      rw [← h2]
      exact hc)]
    exact List.reverse_reverse _
  exact ⟨hstrip, hstrip ▸ hlast⟩

/-- The last element of a stripped list is never whitespace. -/
theorem listStrip_last_not_space (l : List Char) (c : Char)
    (h : (listStrip l).getLast? = some c) : pyIsSpace c = false := by
  unfold listStrip at h
  rw [List.getLast?_reverse] at h
  exact head_dropWhile_false pyIsSpace _ c h

/-- Appending a whitespace-free suffix to a list whose last element is
not whitespace commutes with stripping. -/
theorem listStrip_append (A P : List Char)
    (hA : ∀ c, A.getLast? = some c → pyIsSpace c = false)
    (hP : ∀ c ∈ P, pyIsSpace c = false) :
    listStrip (A ++ P) = listStrip A ++ P := by
  cases hPe : P with
  | nil => simp
  | cons p0 P' =>
    cases hAe : A with
    | nil =>
      rw [List.nil_append]
      have h1 : listStrip (p0 :: P') = p0 :: P' :=
        listStrip_of_no_space (p0 :: P') (hPe ▸ hP)
      rw [h1]
      rfl
    | cons a0 A' =>
      rw [← hPe, ← hAe]
      have hAne : A ≠ [] := by rw [hAe]; exact List.cons_ne_nil a0 A'
      have hPne : P ≠ [] := by rw [hPe]; exact List.cons_ne_nil p0 P'
      obtain ⟨cA, hcA⟩ : ∃ cA, A.getLast? = some cA :=
        ⟨A.getLast hAne, List.getLast?_eq_getLast A hAne⟩
      obtain ⟨cP, hcP⟩ : ∃ cP, P.getLast? = some cP :=
        ⟨P.getLast hPne, List.getLast?_eq_getLast P hPne⟩
      have hcPmem : cP ∈ P := by
        obtain ⟨ys, hys⟩ := List.getLast?_eq_some_iff.mp hcP
        rw [hys]
        simp
      have hlastAP : (A ++ P).getLast? = some cP := by
        rw [List.getLast?_append, hcP]
        rfl
      have h1 := (listStrip_of_last (A ++ P) cP hlastAP (hP cP hcPmem)).1
      have h2 := (listStrip_of_last A cA hcA (hA cA hcA)).1
      rw [h1, h2]
      rw [List.dropWhile_append]
      have hAd : A.dropWhile pyIsSpace ≠ [] :=
        dropWhile_ne_nil_of_mem pyIsSpace A cA (by
          obtain ⟨ys, hys⟩ := List.getLast?_eq_some_iff.mp hcA
          rw [hys]
          simp) (hA cA hcA)
      rw [if_neg (by
        intro hcontra
        exact hAd (List.isEmpty_iff.mp hcontra))]

/-- The string-level form of `listStrip_append`. -/
theorem pyStrip_append (s p : String)
    (hs : ∀ c, s.data.getLast? = some c → pyIsSpace c = false)
    (hp : ∀ c ∈ p.data, pyIsSpace c = false) :
    pyStrip (s ++ p) = pyStrip s ++ p := by
  unfold pyStrip
  rw [String.data_append, listStrip_append s.data p.data hs hp]
  rfl

/-- Dropping trailing punctuation ignores an appended all-punctuation
suffix. -/
theorem listRstripPunct_append (A P : List Char)
    (hP : ∀ c ∈ P, isPunctChar c = true) :
    listRstripPunct (A ++ P) = listRstripPunct A := by
  unfold listRstripPunct
  rw [List.reverse_append, List.dropWhile_append]
  have hPr : P.reverse.dropWhile isPunctChar = [] := by
    rw [List.dropWhile_eq_nil_iff]
    intro x hx
    exact hP x (List.mem_reverse.mp hx)
  rw [hPr]
  simp

/-- A list of punctuation only is erased by `rstrip(".,;")`. -/
theorem listRstripPunct_all_punct (l : List Char)
    (h : ∀ c ∈ l, isPunctChar c = true) : listRstripPunct l = [] := by
  unfold listRstripPunct
  have : l.reverse.dropWhile isPunctChar = [] := by
    rw [List.dropWhile_eq_nil_iff]
    intro x hx
    exact h x (List.mem_reverse.mp hx)
  rw [this]
  rfl

/-! ### The leftmost connector match -/

/-- No match can start at or beyond the penultimate position. -/
theorem connMatchAt_oob (cs : List Char) (i : Nat) (h : cs.length ≤ i + 1) :
    connMatchAt cs i = false := by
  have h2 : cs.get? (i+1) = none := List.get?_eq_none.mpr h
  unfold connMatchAt
  rw [h2]
  cases cs.get? i <;> rfl

/-- A match at `i` needs two characters at `i` and `i+1`. -/
theorem connMatchAt_lt_length (cs : List Char) (i : Nat) (h : connMatchAt cs i = true) :
    i + 2 ≤ cs.length := by
  by_contra hc
  rw [connMatchAt_oob cs i (by omega)] at h
  cases h

/-- What a successful scan returns: the least matching position at or
after the start index. -/
theorem firstConnFrom_eq_some (cs : List Char) :
    ∀ (fuel i j : Nat), firstConnFrom cs i fuel = some j →
      connMatchAt cs j = true ∧ i ≤ j ∧
        ∀ k, i ≤ k → k < j → connMatchAt cs k = false := by
  intro fuel
  induction fuel with
  | zero => intro i j h; simp [firstConnFrom] at h
  | succ f ih =>
    intro i j h
    unfold firstConnFrom at h
    cases hm : connMatchAt cs i with
    | true =>
      rw [hm, if_pos rfl] at h
      cases h
      exact ⟨hm, Nat.le_refl _, fun k hk1 hk2 => absurd (Nat.lt_of_le_of_lt hk1 hk2)
        (Nat.lt_irrefl _)⟩
    | false =>
      rw [hm] at h
      simp only [Bool.false_eq_true, if_false] at h
      obtain ⟨hj, hij, hall⟩ := ih (i+1) j h
      refine ⟨hj, Nat.le_trans (Nat.le_succ i) hij, fun k hk1 hk2 => ?_⟩
      rcases Nat.eq_or_lt_of_le hk1 with heq | hlt
      · rw [← heq]; exact hm
      · exact hall k hlt hk2

/-- What a failed scan means: no match inside the scanned window. -/
theorem firstConnFrom_eq_none (cs : List Char) :
    ∀ (fuel i : Nat), firstConnFrom cs i fuel = none →
      ∀ k, i ≤ k → k < i + fuel → connMatchAt cs k = false := by
  intro fuel
  induction fuel with
  | zero => intro i _ k hk1 hk2; omega
  | succ f ih =>
    intro i h k hk1 hk2
    unfold firstConnFrom at h
    cases hm : connMatchAt cs i with
    | true => rw [hm, if_pos rfl] at h; cases h
    | false =>
      rw [hm] at h
      simp only [Bool.false_eq_true, if_false] at h
      rcases Nat.eq_or_lt_of_le hk1 with heq | hlt
      · rw [← heq]; exact hm
      · exact ih (i+1) h k hlt (by omega)

/-- `firstConnPos` is `none` exactly when the regex matches nowhere. -/
theorem firstConnPos_none_iff (cs : List Char) :
    firstConnPos cs = none ↔ ∀ k, connMatchAt cs k = false := by
  constructor
  · intro h k
    by_cases hk : k < cs.length
    · exact firstConnFrom_eq_none cs cs.length 0 h k (Nat.zero_le k) (by omega)
    · exact connMatchAt_oob cs k (by omega)
  · intro h
    cases hp : firstConnPos cs with
    | none => rfl
    | some j =>
      obtain ⟨hj, -, -⟩ := firstConnFrom_eq_some cs cs.length 0 j hp
      rw [h j] at hj
      cases hj

/-- `firstConnPos` is `some j` exactly when the regex matches at `j`
and nowhere earlier: the split point is the first occurrence. -/
theorem firstConnPos_some_iff (cs : List Char) (j : Nat) :
    firstConnPos cs = some j ↔
      (connMatchAt cs j = true ∧ ∀ k, k < j → connMatchAt cs k = false) := by
  constructor
  · intro h
    obtain ⟨hj, -, hall⟩ := firstConnFrom_eq_some cs cs.length 0 j h
    exact ⟨hj, fun k hk => hall k (Nat.zero_le k) hk⟩
  · rintro ⟨hj, hmin⟩
    cases hp : firstConnPos cs with
    | none =>
      rw [firstConnPos_none_iff] at hp
      rw [hp j] at hj
      cases hj
    | some j' =>
      obtain ⟨hj', -, hall'⟩ := firstConnFrom_eq_some cs cs.length 0 j' hp
      have hjj : j = j' := by
        rcases Nat.lt_trichotomy j j' with hlt | heq | hgt
        · rw [hall' j (Nat.zero_le _) hlt] at hj; cases hj
        · exact heq
        · rw [hmin j' hgt] at hj'; cases hj'
      rw [hjj]

/-! ### Appending punctuation does not disturb the connector search -/

/-- The left word boundary only looks below `i`, so it is unchanged by
appending (for positions inside the first list). -/
theorem noWordBefore_append (A P : List Char) (i : Nat) (h : i ≤ A.length) :
    noWordBefore (A ++ P) i = noWordBefore A i := by
  unfold noWordBefore
  by_cases h0 : i = 0
  · rw [if_pos h0, if_pos h0]
  · rw [if_neg h0, if_neg h0, List.get?_append (by omega)]

/-- The right word boundary at the old end of the string is preserved
by an all-punctuation suffix (punctuation is not a word character). -/
theorem noWordAfter_append_le (A P : List Char)
    (hP : ∀ c ∈ P, isPunctChar c = true) (i : Nat) (h : i + 2 ≤ A.length) :
    noWordAfter (A ++ P) i = noWordAfter A i := by
  unfold noWordAfter
  rcases Nat.lt_or_ge (i+2) A.length with h2 | h2
  · rw [List.get?_append h2]
  · have hA : A.get? (i+2) = none := List.get?_eq_none.mpr (by omega)
    have hsub : i + 2 - A.length = 0 := by omega
    have hAP : (A ++ P).get? (i+2) = P.get? 0 := by
      rw [List.get?_append_right (by omega), hsub]
    rw [hA, hAP]
    cases hg : P.get? 0 with
    | none => rfl
    | some p0 =>
      simp [punct_not_word p0 (hP p0 (List.get?_mem hg))]

/-- A regex match is insensitive to an all-punctuation suffix: the
match positions in `A ++ P` are exactly those in `A`. -/
theorem connMatchAt_append_punct (A P : List Char)
    (hP : ∀ c ∈ P, isPunctChar c = true) (i : Nat) :
    connMatchAt (A ++ P) i = connMatchAt A i := by
  rcases Nat.lt_or_ge (i+1) A.length with h1 | h1
  · have hi : i < A.length := by omega
    unfold connMatchAt
    rw [List.get?_append hi, List.get?_append h1]
    cases hg1 : A.get? i with
    | none => rfl
    | some c1 =>
      cases hg2 : A.get? (i+1) with
      | none => rfl
      | some c2 =>
        rw [noWordBefore_append A P i (by omega), noWordAfter_append_le A P hP i (by omega)]
  · rcases Nat.lt_or_ge i A.length with h2 | h2
    · rw [connMatchAt_oob A i (by omega)]
      unfold connMatchAt
      rw [List.get?_append h2, List.get?_append_right (by omega)]
      cases hg1 : A.get? i with
      | none => rfl
      | some c1 =>
        cases hg2 : P.get? (i + 1 - A.length) with
        | none => rfl
        | some c2 =>
          simp only [connPair_right_punct c1 c2 (hP c2 (List.get?_mem hg2)), Bool.false_and]
    · rw [connMatchAt_oob A i (by omega)]
      unfold connMatchAt
      rw [List.get?_append_right h2]
      cases hg1 : P.get? (i - A.length) with
      | none => rfl
      | some c1 =>
        cases hg2 : (A ++ P).get? (i+1) with
        | none => rfl
        | some c2 =>
          simp only [connPair_left_punct c1 c2 (hP c1 (List.get?_mem hg1)), Bool.false_and]

/-- An all-punctuation string contains no connector match at all. -/
theorem connMatchAt_all_punct (l : List Char)
    (h : ∀ c ∈ l, isPunctChar c = true) (i : Nat) : connMatchAt l i = false := by
  unfold connMatchAt
  cases hg1 : l.get? i with
  | none => rfl
  | some c1 =>
    cases hg2 : l.get? (i+1) with
    | none => rfl
    | some c2 =>
      simp only [connPair_left_punct c1 c2 (h c1 (List.get?_mem hg1)), Bool.false_and]

/-- The leftmost match position is insensitive to an all-punctuation
suffix. -/
theorem firstConnPos_append_punct (A P : List Char)
    (hP : ∀ c ∈ P, isPunctChar c = true) :
    firstConnPos (A ++ P) = firstConnPos A := by
  cases hA : firstConnPos A with
  | none =>
    rw [firstConnPos_none_iff] at hA
    rw [firstConnPos_none_iff]
    intro k
    rw [connMatchAt_append_punct A P hP k]
    exact hA k
  | some j =>
    obtain ⟨hj, hmin⟩ := (firstConnPos_some_iff A j).mp hA
    rw [firstConnPos_some_iff]
    constructor
    · rw [connMatchAt_append_punct A P hP j]
      exact hj
    · intro k hk
      rw [connMatchAt_append_punct A P hP k]
      exact hmin k hk

/-- How the connector split behaves under an all-punctuation suffix:
with no match both strings stay whole; with a leftmost match at `j`
both split there and the suffix lands at the end of the target part. -/
theorem connectorSplit_append_punct (e p : String)
    (hp : ∀ c ∈ p.data, isPunctChar c = true) :
    (firstConnPos e.data = none →
      connectorSplit (e ++ p) = [e ++ p] ∧ connectorSplit e = [e]) ∧
    (∀ j, firstConnPos e.data = some j →
      connectorSplit (e ++ p) =
        [String.mk (e.data.take j), String.mk (e.data.drop (j+2)) ++ p] ∧
      connectorSplit e = [String.mk (e.data.take j), String.mk (e.data.drop (j+2))]) := by
  have hdata : (e ++ p).data = e.data ++ p.data := String.data_append e p
  have hfc : firstConnPos (e ++ p).data = firstConnPos e.data := by
    rw [hdata]
    exact firstConnPos_append_punct e.data p.data hp
  constructor
  · intro hn
    constructor
    · unfold connectorSplit
      rw [hfc, hn]
    · unfold connectorSplit
      rw [hn]
  · intro j hj
    have hlen : j + 2 ≤ e.data.length := by
      obtain ⟨hm, -⟩ := (firstConnPos_some_iff e.data j).mp hj
      exact connMatchAt_lt_length e.data j hm
    constructor
    · unfold connectorSplit
      rw [hfc, hj]
      have ht : (e ++ p).data.take j = e.data.take j := by
        rw [hdata, List.take_append_eq_append_take]
        have hz : j - e.data.length = 0 := by omega
        rw [hz]
        simp
      have hd : (e ++ p).data.drop (j+2) = e.data.drop (j+2) ++ p.data := by
        rw [hdata, List.drop_append_eq_append_drop]
        have hz : j + 2 - e.data.length = 0 := by omega
        rw [hz]
        simp
      simp only [ht, hd]
      rfl
    · unfold connectorSplit
      rw [hj]

/-! ### Reduction lemmas for the conversion stages -/

/-- Unfold `convertParsed` through its `let`s. -/
theorem convertParsed_def {α : Type} (B : Backend α) (v u t : String) :
    convertParsed B v u t =
      if pyRstripPunct u = "" then .error .valueError
      else if pyRstripPunct t = "" then .error .valueError
      else
        match B.float_of_string v with
        | none => .error .valueError
        | some numeric_value =>
          match B.convert numeric_value (pyRstripPunct u) (pyRstripPunct t) with
          | .error e => .error e
          | .ok none => .error .valueError
          | .ok (some result) => .ok result := rfl

/-- Unfold `convertHalves` through its `let`s. -/
theorem convertHalves_def {α : Type} (B : Backend α) (l r : String) :
    convertHalves B l r =
      if pyStrip l = "" ∨ pyStrip r = "" then .error .valueError
      else
        match B.parse_input (pyStrip l) with
        | (some value_text, some source_unit) =>
          if value_text = "" then .error .valueError
          else convertParsed B value_text source_unit (pyStrip r)
        | _ => .error .valueError := rfl

/-- A two-part split hands both parts to `convertHalves`. -/
theorem convert_expression_two {α : Type} (B : Backend α) (s a b : String)
    (h : connectorSplit s = [a, b]) :
    convert_expression B s = convertHalves B a b := by
  unfold convert_expression
  rw [h]

/-- A one-part split (no connector) raises `ValueError`. -/
theorem convert_expression_one {α : Type} (B : Backend α) (s a : String)
    (h : connectorSplit s = [a]) :
    convert_expression B s = .error .valueError := by
  unfold convert_expression
  rw [h]

/-- Trailing punctuation appended to the target text is erased by the
`rstrip` of `convertParsed`. -/
theorem convertParsed_target_append {α : Type} (B : Backend α) (v u t p : String)
    (hp : ∀ c ∈ p.data, isPunctChar c = true) :
    convertParsed B v u (t ++ p) = convertParsed B v u t := by
  rw [convertParsed_def, convertParsed_def]
  have hr : pyRstripPunct (t ++ p) = pyRstripPunct t := by
    unfold pyRstripPunct
    rw [String.data_append, listRstripPunct_append t.data p.data hp]
  rw [hr]

/-- Trailing punctuation appended to the parsed source unit is erased
by the `rstrip` of `convertParsed`. -/
theorem convertParsed_unit_append {α : Type} (B : Backend α) (v u p t : String)
    (hp : ∀ c ∈ p.data, isPunctChar c = true) :
    convertParsed B v (u ++ p) t = convertParsed B v u t := by
  rw [convertParsed_def, convertParsed_def]
  have hr : pyRstripPunct (u ++ p) = pyRstripPunct u := by
    unfold pyRstripPunct
    rw [String.data_append, listRstripPunct_append u.data p.data hp]
  rw [hr]

/-! ### Claim theorems -/

/-- C1: `render_results` returns exactly one output line per input
line, in order, and the i-th output is `renderLine` of the i-th input
line alone. -/
theorem render_results_pointwise (α : Type) (B : Backend α) (lines : List String) :
    (render_results B lines).length = lines.length ∧
    ∀ i : Nat, (render_results B lines).get? i = (lines.get? i).map (renderLine B) := by
  constructor
  · rw [render_results_eq_map]; exact List.length_map lines (renderLine B)
  · intro i; rw [render_results_eq_map]; exact List.get?_map (renderLine B) lines i

/-- C2: `render_results` is a total function, and any failure of
`_convert_expression` on one line (every `ValueError` guard, the
backend's `UnitTypeNameNotFound`, or any other backend exception,
i.e. every `PyError`) is caught at that line's boundary: that line
renders as `""` while every other line still renders exactly as its own
`renderLine` result. -/
theorem render_results_error_contained (α : Type) (B : Backend α) (lines : List String)
    (i : Nat) (line : String) (e : PyError)
    (hline : lines.get? i = some line)
    (herr : convert_expression B (pyStrip line) = .error e) :
    (render_results B lines).get? i = some "" ∧
    ∀ j : Nat, (render_results B lines).get? j = (lines.get? j).map (renderLine B) := by
  have hmap : ∀ j : Nat, (render_results B lines).get? j = (lines.get? j).map (renderLine B) := by
    intro j; rw [render_results_eq_map]; exact List.get?_map (renderLine B) lines j
  refine ⟨?_, hmap⟩
  rw [hmap i, hline, Option.map_some', renderLine_of_error B line e herr]

/-- Witness for C2 at a concrete failing line. -/
theorem render_results_error_contained_witness :
    (render_results demoBackend ["bad", "12 inches to mm"]).get? 0 = some "" ∧
    ∀ j : Nat, (render_results demoBackend ["bad", "12 inches to mm"]).get? j =
      (["bad", "12 inches to mm"].get? j).map (renderLine demoBackend) :=
  render_results_error_contained Nat demoBackend ["bad", "12 inches to mm"] 0 "bad"
    PyError.valueError (by decide) (by decide)

/-- C8: an input line consisting only of whitespace (or empty) always
renders as the deliberate blank `""`, at its own position of the output
sequence. -/
theorem blank_lines_blank (α : Type) (B : Backend α) (lines : List String)
    (i : Nat) (line : String)
    (hline : lines.get? i = some line)
    (hblank : ∀ c ∈ line.data, pyIsSpace c = true) :
    (render_results B lines).get? i = some "" := by
  have hstrip : pyStrip line = "" := by
    have h0 : listStrip line.data = [] := listStrip_of_all_space line.data hblank
    simp only [pyStrip, h0]
  rw [render_results_eq_map, List.get?_map (renderLine B) lines i, hline, Option.map_some',
    renderLine_of_blank B line hstrip]

/-- C3: the connector is matched as the case-insensitive whole word
`to` or `as` (the matcher `connMatchAt`), and a line with a match is
split into exactly two parts at the first match only: everything before
the leftmost match, and everything after its two characters — any later
occurrence stays inside the second part. -/
theorem connector_split_first_match (s : String) (i : Nat)
    (h : connMatchAt s.data i = true) :
    ∃ j, j ≤ i ∧ connMatchAt s.data j = true ∧
      (∀ k, k < j → connMatchAt s.data k = false) ∧
      connectorSplit s = [String.mk (s.data.take j), String.mk (s.data.drop (j+2))] := by
  cases hp : firstConnPos s.data with
  | none =>
    rw [firstConnPos_none_iff] at hp
    rw [hp i] at h
    cases h
  | some j =>
    obtain ⟨hj, hmin⟩ := (firstConnPos_some_iff s.data j).mp hp
    refine ⟨j, ?_, hj, hmin, ?_⟩
    · by_contra hc
      rw [hmin i (by omega)] at h
      cases h
    · unfold connectorSplit
      rw [hp]

/-- Witness for C3: an upper-case connector in `"5 m TO ft"` is found
at position 4 and splits the line there. -/
theorem connector_split_first_match_witness :
    connMatchAt ("5 m TO ft" : String).data 4 = true ∧
    ∃ j, j ≤ 4 ∧ connMatchAt ("5 m TO ft" : String).data j = true ∧
      (∀ k, k < j → connMatchAt ("5 m TO ft" : String).data k = false) ∧
      connectorSplit "5 m TO ft" =
        [String.mk (("5 m TO ft" : String).data.take j),
         String.mk (("5 m TO ft" : String).data.drop (j+2))] :=
  ⟨by decide, connector_split_first_match "5 m TO ft" 4 (by decide)⟩

/-- C4: a line that is non-empty after stripping and whose stripped
text has no whole-word case-insensitive occurrence of `to` or `as`
renders as `""` at its position of the output sequence. -/
theorem no_connector_blank (α : Type) (B : Backend α) (lines : List String)
    (i : Nat) (line : String)
    (hline : lines.get? i = some line)
    (h1 : pyStrip line ≠ "")
    (h2 : ∀ k, k < (pyStrip line).data.length →
      connMatchAt (pyStrip line).data k = false) :
    (render_results B lines).get? i = some "" := by
  have hall : ∀ k, connMatchAt (pyStrip line).data k = false := by
    intro k
    by_cases hk : k < (pyStrip line).data.length
    · exact h2 k hk
    · exact connMatchAt_oob _ k (by omega)
  have hpos : firstConnPos (pyStrip line).data = none := (firstConnPos_none_iff _).mpr hall
  have hsplit : connectorSplit (pyStrip line) = [pyStrip line] := by
    unfold connectorSplit
    rw [hpos]
  have herr : convert_expression B (pyStrip line) = .error .valueError := by
    unfold convert_expression
    rw [hsplit]
  rw [render_results_eq_map, List.get?_map (renderLine B) lines i, hline, Option.map_some',
    renderLine_of_error B line .valueError herr]

/-- Witness for C4 on the spec's own example `"bad input"`. -/
theorem no_connector_blank_witness :
    (render_results demoBackend ["bad input"]).get? 0 = some "" :=
  no_connector_blank Nat demoBackend ["bad input"] 0 "bad input"
    (by decide) (by decide) (by decide)

/-- Unfold `format_value` on a finite value through its `let`. -/
theorem format_value_finite {α : Type} (fmt : String → α → String) (x : α) :
    format_value fmt (PyFloat.finite x) =
      if endsWithDot (fmt FORMAT_SPEC x) then String.mk (fmt FORMAT_SPEC x).data.dropLast
      else fmt FORMAT_SPEC x := rfl

/-- C5: a finite result is rendered through `format(value, ",.12g")`
(the module's `_FORMAT_SPEC`), and exactly when that rendering ends in
a trailing decimal point the point is removed, so the rendering of a
finite result never ends in `'.'`.  The formatter is external; the
hypothesis records the (true) property of Python `",.12g"` output that
it contains at most one decimal point. -/
theorem finite_format_strips_trailing_dot (α : Type) (fmt : String → α → String) (x : α)
    (h : (fmt FORMAT_SPEC x).data.count '.' ≤ 1) :
    FORMAT_SPEC = ",.12g" ∧
    (endsWithDot (fmt FORMAT_SPEC x) = false →
      format_value fmt (PyFloat.finite x) = fmt FORMAT_SPEC x) ∧
    (endsWithDot (fmt FORMAT_SPEC x) = true →
      format_value fmt (PyFloat.finite x) = String.mk (fmt FORMAT_SPEC x).data.dropLast) ∧
    endsWithDot (format_value fmt (PyFloat.finite x)) = false := by
  cases hE : endsWithDot (fmt FORMAT_SPEC x) with
  | false =>
    have hfv : format_value fmt (PyFloat.finite x) = fmt FORMAT_SPEC x := by
      rw [format_value_finite, if_neg]
      rw [hE]
      exact Bool.false_ne_true
    refine ⟨rfl, fun _ => hfv, fun hc => ?_, ?_⟩
    · cases hc
    · rw [hfv, hE]
  | true =>
    have hlast : (fmt FORMAT_SPEC x).data.getLast? = some '.' := by
      unfold endsWithDot at hE
      cases hL : (fmt FORMAT_SPEC x).data.getLast? with
      | none => rw [hL] at hE; cases hE
      | some c =>
        rw [hL] at hE
        have hc : c = '.' := by simpa using hE
        rw [hc]
    obtain ⟨ys, hys⟩ := List.getLast?_eq_some_iff.mp hlast
    have hdrop : (fmt FORMAT_SPEC x).data.dropLast = ys := by
      rw [hys]; exact List.dropLast_concat
    have hfv : format_value fmt (PyFloat.finite x) = String.mk ys := by
      rw [format_value_finite, if_pos hE, hdrop]
    have hys_count : ys.count '.' = 0 := by
      have := h
      rw [hys, List.count_append] at this
      simp at this
      omega
    have hys_nodot : ('.' : Char) ∉ ys := List.count_eq_zero.mp hys_count
    have hend : endsWithDot (String.mk ys) = false := by
      unfold endsWithDot
      cases hL2 : (String.mk ys).data.getLast? with
      | none => rfl
      | some c =>
        have hcys : c ∈ ys := by
          have : (String.mk ys).data = ys := rfl
          rw [this] at hL2
          obtain ⟨zs, hzs⟩ := List.getLast?_eq_some_iff.mp hL2
          rw [hzs]
          simp
        have : c ≠ '.' := fun hc => hys_nodot (hc ▸ hcys)
        simpa using this
    refine ⟨rfl, fun hc => ?_, fun _ => ?_, ?_⟩
    · cases hc
    · rw [hfv, hdrop.symm]
    · rw [hfv]
      exact hend

/-- Witness for C5 with a formatter output carrying a trailing point. -/
theorem finite_format_strips_trailing_dot_witness :
    ("1,234." : String).data.count '.' ≤ 1 ∧
    (FORMAT_SPEC = ",.12g" ∧
     (endsWithDot ("1,234." : String) = false →
       format_value (fun _ (_ : Nat) => "1,234.") (PyFloat.finite 0) = "1,234.") ∧
     (endsWithDot ("1,234." : String) = true →
       format_value (fun _ (_ : Nat) => "1,234.") (PyFloat.finite 0) =
         String.mk ("1,234." : String).data.dropLast) ∧
     endsWithDot (format_value (fun _ (_ : Nat) => "1,234.") (PyFloat.finite 0)) = false) :=
  ⟨by decide, finite_format_strips_trailing_dot Nat (fun _ _ => "1,234.") 0 (by decide)⟩

/-- C6: when the conversion backend delivers `NaN` or an infinity for a
line, the evaluator renders the standard symbolic form (`"nan"`,
`"inf"`, `"-inf"`) as that line's output, and the grouped-digit
formatter is bypassed (the output does not depend on the backend's
`fmt` field at all); no error path is taken. -/
theorem special_values_render_symbolic (α : Type) (B : Backend α) (line : String)
    (v : PyFloat α)
    (hok : convert_expression B (pyStrip line) = .ok v)
    (hspec : (v.isNaN || v.isInf) = true) :
    (v = PyFloat.nan → renderLine B line = "nan") ∧
    (v = PyFloat.inf false → renderLine B line = "inf") ∧
    (v = PyFloat.inf true → renderLine B line = "-inf") ∧
    (v = PyFloat.nan ∨ v = PyFloat.inf false ∨ v = PyFloat.inf true) ∧
    (∀ fmt2 : String → α → String,
      renderLine ⟨B.parse_input, B.float_of_string, B.convert, fmt2⟩ line =
        renderLine B line) := by
  have hne : pyStrip line ≠ "" := by
    intro h0
    rw [h0] at hok
    have hempty : convert_expression B "" = .error .valueError := rfl
    rw [hempty] at hok
    cases hok
  have hrl : renderLine B line = format_value B.fmt v := by
    rw [renderLine_def, if_neg hne, hok]
  have hforms : v = PyFloat.nan ∨ v = PyFloat.inf false ∨ v = PyFloat.inf true := by
    cases v with
    | nan => exact Or.inl rfl
    | inf b =>
      cases b
      · exact Or.inr (Or.inl rfl)
      · exact Or.inr (Or.inr rfl)
    | finite x => simp [PyFloat.isNaN, PyFloat.isInf] at hspec
  refine ⟨?_, ?_, ?_, hforms, ?_⟩
  · rintro rfl; rw [hrl]; rfl
  · rintro rfl; rw [hrl]; rfl
  · rintro rfl; rw [hrl]; rfl
  · intro fmt2
    have hce : convert_expression ⟨B.parse_input, B.float_of_string, B.convert, fmt2⟩
        (pyStrip line) = convert_expression B (pyStrip line) := by
      obtain ⟨pi, fl, cv, f⟩ := B
      rfl
    rw [renderLine_def, renderLine_def, if_neg hne, if_neg hne, hce, hok]
    rcases hforms with rfl | rfl | rfl <;> rfl

/-- Witness for C6 on a line whose conversion yields `NaN`. -/
theorem special_values_render_symbolic_witness :
    (PyFloat.nan = (PyFloat.nan : PyFloat Nat) →
      renderLine demoBackend "1 u to nn" = "nan") ∧
    ((PyFloat.nan : PyFloat Nat) = PyFloat.inf false →
      renderLine demoBackend "1 u to nn" = "inf") ∧
    ((PyFloat.nan : PyFloat Nat) = PyFloat.inf true →
      renderLine demoBackend "1 u to nn" = "-inf") ∧
    ((PyFloat.nan : PyFloat Nat) = PyFloat.nan ∨
      (PyFloat.nan : PyFloat Nat) = PyFloat.inf false ∨
      (PyFloat.nan : PyFloat Nat) = PyFloat.inf true) ∧
    (∀ fmt2 : String → Nat → String,
      renderLine ⟨demoBackend.parse_input, demoBackend.float_of_string,
        demoBackend.convert, fmt2⟩ "1 u to nn" = renderLine demoBackend "1 u to nn") :=
  special_values_render_symbolic Nat demoBackend "1 u to nn" PyFloat.nan
    (by decide) (by decide)

/-- Witness for C8 on a whitespace-only line. -/
theorem blank_lines_blank_witness :
    (render_results demoBackend ["5 m to ft", " \t ", "x"]).get? 1 = some "" :=
  blank_lines_blank Nat demoBackend ["5 m to ft", " \t ", "x"] 1 " \t "
    (by decide) (by decide)

/-! ### Lemmas about `str.splitlines` -/

/-- Structure eta for strings. -/
theorem string_mk_data (s : String) : String.mk s.data = s := rfl

/-- One non-break character is accumulated into the current line. -/
theorem splitlinesAux_nonbreak (acc : List Char) (c : Char) (rest : List Char)
    (h : isLineBreakChar c = false) :
    splitlinesAux false acc (c :: rest) = splitlinesAux false (c :: acc) rest := by
  have hcr : ¬(c = '\r') := by
    intro hc2
    rw [hc2] at h
    cases h
  simp only [splitlinesAux, Bool.false_and, Bool.false_eq_true, if_false, if_neg hcr, h]

/-- A `\n` with no pending `\r` ends the current line. -/
theorem splitlinesAux_lf (acc : List Char) (rest : List Char) :
    splitlinesAux false acc ('\n' :: rest) =
      String.mk acc.reverse :: splitlinesAux false [] rest := rfl

/-- A `\r` ends the current line and arms the skip flag. -/
theorem splitlinesAux_cr_step (acc : List Char) (rest : List Char) :
    splitlinesAux false acc ('\r' :: rest) =
      String.mk acc.reverse :: splitlinesAux true [] rest := rfl

/-- With the skip flag armed, a leading `\n` is the second half of a
`\r\n` break and is consumed silently. -/
theorem splitlinesAux_skip (acc : List Char) (rest : List Char) :
    splitlinesAux true acc ('\n' :: rest) = splitlinesAux false acc rest := rfl

/-- The skip flag is inert when the next character is not `\n`. -/
theorem splitlinesAux_flag (acc : List Char) (t : List Char)
    (ht : t.head? ≠ some '\n') :
    splitlinesAux true acc t = splitlinesAux false acc t := by
  cases t with
  | nil => rfl
  | cons c2 t2 =>
    have hc2 : (c2 == '\n') = false := by
      cases hb : c2 == '\n' with
      | false => rfl
      | true =>
        exfalso
        apply ht
        rw [beq_iff_eq] at hb
        rw [hb]
        rfl
    simp only [splitlinesAux, hc2, Bool.and_false, Bool.false_and, Bool.false_eq_true, if_false]

/-- Walking a break-free segment up to a `\n` emits exactly that
segment (prefixed by the accumulator) as one line. -/
theorem splitlinesAux_newline (t : List Char) (s : List Char)
    (h : ∀ c ∈ s, isLineBreakChar c = false) :
    ∀ acc : List Char,
      splitlinesAux false acc (s ++ '\n' :: t) =
        String.mk (acc.reverse ++ s) :: splitlinesAux false [] t := by
  induction s with
  | nil =>
    intro acc
    rw [List.nil_append, splitlinesAux_lf]
    simp
  | cons c s' ih =>
    intro acc
    have hc : isLineBreakChar c = false := h c (List.mem_cons_self c s')
    rw [List.cons_append, splitlinesAux_nonbreak acc c _ hc,
      ih (fun d hd => h d (List.mem_cons_of_mem c hd)) (c :: acc)]
    simp

/-- Walking a break-free segment up to a `\r\n` pair emits exactly that
segment as one line; the pair counts as a single break. -/
theorem splitlinesAux_crlf (t : List Char) (s : List Char)
    (h : ∀ c ∈ s, isLineBreakChar c = false) :
    ∀ acc : List Char,
      splitlinesAux false acc (s ++ '\r' :: '\n' :: t) =
        String.mk (acc.reverse ++ s) :: splitlinesAux false [] t := by
  induction s with
  | nil =>
    intro acc
    rw [List.nil_append, splitlinesAux_cr_step, splitlinesAux_skip]
    simp
  | cons c s' ih =>
    intro acc
    have hc : isLineBreakChar c = false := h c (List.mem_cons_self c s')
    rw [List.cons_append, splitlinesAux_nonbreak acc c _ hc,
      ih (fun d hd => h d (List.mem_cons_of_mem c hd)) (c :: acc)]
    simp

/-- Walking a break-free segment up to a lone `\r` (not followed by
`\n`) emits exactly that segment as one line. -/
theorem splitlinesAux_cr (t : List Char) (ht : t.head? ≠ some '\n') (s : List Char)
    (h : ∀ c ∈ s, isLineBreakChar c = false) :
    ∀ acc : List Char,
      splitlinesAux false acc (s ++ '\r' :: t) =
        String.mk (acc.reverse ++ s) :: splitlinesAux false [] t := by
  induction s with
  | nil =>
    intro acc
    rw [List.nil_append, splitlinesAux_cr_step, splitlinesAux_flag [] t ht]
    simp
  | cons c s' ih =>
    intro acc
    have hc : isLineBreakChar c = false := h c (List.mem_cons_self c s')
    rw [List.cons_append, splitlinesAux_nonbreak acc c _ hc,
      ih (fun d hd => h d (List.mem_cons_of_mem c hd)) (c :: acc)]
    simp

/-- C9: `update_results` is `render_results` of the text split on line
breaks; the empty text yields the empty output sequence; and each of
the common newline conventions `\n`, `\r\n` and lone `\r` delimits
lines (a break-free segment before it becomes one line).  Totality for
every input string is inherent in the embedding. -/
theorem update_results_splitlines (α : Type) (B : Backend α) (text s t : String)
    (hs : ∀ c ∈ s.data, isLineBreakChar c = false) :
    update_results B text = render_results B (pySplitlines text) ∧
    update_results B "" = ([] : List String) ∧
    pySplitlines (s ++ "\n" ++ t) = s :: pySplitlines t ∧
    pySplitlines (s ++ "\r\n" ++ t) = s :: pySplitlines t ∧
    (t.data.head? ≠ some '\n' →
      pySplitlines (s ++ "\r" ++ t) = s :: pySplitlines t) := by
  refine ⟨rfl, rfl, ?_, ?_, ?_⟩
  · have hdata : (s ++ "\n" ++ t).data = s.data ++ '\n' :: t.data := by
      simp [String.data_append]
    unfold pySplitlines
    rw [hdata, splitlinesAux_newline t.data s.data hs []]
    simp only [List.reverse_nil, List.nil_append, string_mk_data]
  · have hdata : (s ++ "\r\n" ++ t).data = s.data ++ '\r' :: '\n' :: t.data := by
      simp [String.data_append]
    unfold pySplitlines
    rw [hdata, splitlinesAux_crlf t.data s.data hs []]
    simp only [List.reverse_nil, List.nil_append, string_mk_data]
  · intro ht
    have hdata : (s ++ "\r" ++ t).data = s.data ++ '\r' :: t.data := by
      simp [String.data_append]
    unfold pySplitlines
    rw [hdata, splitlinesAux_cr t.data ht s.data hs []]
    simp only [List.reverse_nil, List.nil_append, string_mk_data]

/-- Witness for C9 on concrete strings for all three conventions. -/
theorem update_results_splitlines_witness :
    pySplitlines ("ab" ++ "\n" ++ "cd") = "ab" :: pySplitlines "cd" ∧
    pySplitlines ("ab" ++ "\r\n" ++ "cd") = "ab" :: pySplitlines "cd" ∧
    pySplitlines ("ab" ++ "\r" ++ "cd") = "ab" :: pySplitlines "cd" ∧
    update_results demoBackend "" = ([] : List String) :=
  ⟨(update_results_splitlines Nat demoBackend "" "ab" "cd" (by decide)).2.2.1,
   (update_results_splitlines Nat demoBackend "" "ab" "cd" (by decide)).2.2.2.1,
   (update_results_splitlines Nat demoBackend "" "ab" "cd" (by decide)).2.2.2.2 (by decide),
   (update_results_splitlines Nat demoBackend "" "ab" "cd" (by decide)).2.1⟩

/-! ### Punctuation-only target or unit: guaranteed failure -/

/-- If the stripped target text consists of punctuation only, every
path through `convertHalves` raises. -/
theorem convertHalves_error_of_punct_target {α : Type} (B : Backend α) (l r : String)
    (h : ∀ c ∈ (pyStrip r).data, isPunctChar c = true) :
    ∃ e, convertHalves B l r = .error e := by
  rw [convertHalves_def]
  by_cases h1 : pyStrip l = "" ∨ pyStrip r = ""
  · rw [if_pos h1]
    exact ⟨_, rfl⟩
  · rw [if_neg h1]
    have ht : pyRstripPunct (pyStrip r) = "" := by
      unfold pyRstripPunct
      rw [listRstripPunct_all_punct (pyStrip r).data h]
    rcases hpi : B.parse_input (pyStrip l) with ⟨vO, uO⟩
    cases vO with
    | none => exact ⟨_, rfl⟩
    | some v =>
      cases uO with
      | none => exact ⟨_, rfl⟩
      | some u =>
        by_cases hv : v = ""
        · simp only [if_pos hv]
          exact ⟨_, rfl⟩
        · simp only [if_neg hv]
          rw [convertParsed_def]
          by_cases hu : pyRstripPunct u = ""
          · rw [if_pos hu]
            exact ⟨_, rfl⟩
          · rw [if_neg hu, if_pos ht]
            exact ⟨_, rfl⟩

/-- If the parser reports a punctuation-only source unit, every path
through `convertHalves` raises. -/
theorem convertHalves_error_of_punct_unit {α : Type} (B : Backend α) (l r v u : String)
    (hpi : B.parse_input (pyStrip l) = (some v, some u))
    (h : ∀ c ∈ u.data, isPunctChar c = true) :
    ∃ e, convertHalves B l r = .error e := by
  rw [convertHalves_def]
  by_cases h1 : pyStrip l = "" ∨ pyStrip r = ""
  · rw [if_pos h1]
    exact ⟨_, rfl⟩
  · rw [if_neg h1, hpi]
    by_cases hv : v = ""
    · simp only [if_pos hv]
      exact ⟨_, rfl⟩
    · simp only [if_neg hv]
      rw [convertParsed_def]
      have hu : pyRstripPunct u = "" := by
        unfold pyRstripPunct
        rw [listRstripPunct_all_punct u.data h]
      rw [if_pos hu]
      exact ⟨_, rfl⟩

/-- C10: `rstrip(".,;")` removes every trailing punctuation character,
in any number and combination — what remains never ends in one, and
what was removed is an all-punctuation suffix; consequently a target
text or a parsed source unit consisting only of such punctuation is
emptied by the strip and the line renders as `""`. -/
theorem rstrip_punct_removes_all (α : Type) (B : Backend α) :
    (∀ s : String,
      (∀ c, (pyRstripPunct s).data.getLast? = some c → isPunctChar c = false) ∧
      ∃ q : List Char, s.data = (pyRstripPunct s).data ++ q ∧
        ∀ c ∈ q, isPunctChar c = true) ∧
    (∀ line l r : String, connectorSplit (pyStrip line) = [l, r] →
      (∀ c ∈ (pyStrip r).data, isPunctChar c = true) →
      renderLine B line = "") ∧
    (∀ line l r v u : String, connectorSplit (pyStrip line) = [l, r] →
      B.parse_input (pyStrip l) = (some v, some u) →
      (∀ c ∈ u.data, isPunctChar c = true) →
      renderLine B line = "") := by
  refine ⟨?_, ?_, ?_⟩
  · intro s
    constructor
    · intro c hc
      have hc2 : (listRstripPunct s.data).getLast? = some c := hc
      unfold listRstripPunct at hc2
      rw [List.getLast?_reverse] at hc2
      exact head_dropWhile_false isPunctChar s.data.reverse c hc2
    · refine ⟨(s.data.reverse.takeWhile isPunctChar).reverse, ?_, ?_⟩
      · have : (pyRstripPunct s).data = listRstripPunct s.data := rfl
        rw [this]
        unfold listRstripPunct
        rw [← List.reverse_append, List.takeWhile_append_dropWhile, List.reverse_reverse]
      · intro c hc
        rw [List.mem_reverse] at hc
        exact List.mem_takeWhile_imp hc
  · intro line l r hsplit hpunct
    obtain ⟨e, he⟩ := convertHalves_error_of_punct_target B l r hpunct
    exact renderLine_of_error B line e ((convert_expression_two B (pyStrip line) l r hsplit).trans he)
  · intro line l r v u hsplit hpi hpunct
    obtain ⟨e, he⟩ := convertHalves_error_of_punct_unit B l r v u hpi hpunct
    exact renderLine_of_error B line e ((convert_expression_two B (pyStrip line) l r hsplit).trans he)

/-- Witness for C10: a punctuation-only target text and a
punctuation-only parsed source unit both blank the line, and the
stripped suffix of a concrete string is recovered. -/
theorem rstrip_punct_removes_all_witness :
    renderLine demoBackend "12 inches to .;," = "" ∧
    renderLine demoBackend "9 x to mm" = "" ∧
    (∃ q : List Char, ("mm.;," : String).data = (pyRstripPunct "mm.;,").data ++ q ∧
      ∀ c ∈ q, isPunctChar c = true) :=
  ⟨(rstrip_punct_removes_all Nat demoBackend).2.1 "12 inches to .;," "12 inches " " .;,"
      (by decide) (by decide),
   (rstrip_punct_removes_all Nat demoBackend).2.2 "9 x to mm" "9 x " " mm" "9" ".;,"
      (by decide) (by decide) (by decide),
   ((rstrip_punct_removes_all Nat demoBackend).1 "mm.;,").2⟩

/-! ### Trailing punctuation on the line is ignored -/

/-- A string with empty character data is the empty string. -/
theorem string_eq_empty_of_data (s : String) (h : s.data = []) : s = "" := by
  cases s with
  | mk d =>
    cases h
    rfl

/-- A string whose last character is not whitespace and that strips to
empty must be empty. -/
theorem eq_empty_of_strip_empty (r : String)
    (hr : ∀ c, r.data.getLast? = some c → pyIsSpace c = false)
    (hse : pyStrip r = "") : r = "" := by
  cases hd : r.data with
  | nil =>
    cases r with
    | mk d =>
      cases hd
      rfl
  | cons a rest =>
    exfalso
    have hne : r.data ≠ [] := by
      rw [hd]
      exact List.cons_ne_nil a rest
    obtain ⟨c, hc⟩ : ∃ c, r.data.getLast? = some c :=
      ⟨r.data.getLast hne, List.getLast?_eq_getLast _ hne⟩
    have hcs : pyIsSpace c = false := hr c hc
    have h2 : listStrip r.data = [] := congrArg String.data hse
    have h3 := (listStrip_of_last r.data c hc hcs).2
    rw [h2] at h3
    cases h3

/-- An all-punctuation line (non-empty) has no connector, so it
renders as `""`. -/
theorem renderLine_all_punct {α : Type} (B : Backend α) (p : String)
    (hp : ∀ c ∈ p.data, isPunctChar c = true) :
    renderLine B p = "" := by
  by_cases hp0 : p = ""
  · exact renderLine_of_blank B p (by rw [hp0]; rfl)
  · have hsp : pyStrip p = p := by
      unfold pyStrip
      rw [listStrip_of_no_space p.data (fun c hc => punct_not_space c (hp c hc))]
    have hpos : firstConnPos p.data = none :=
      (firstConnPos_none_iff p.data).mpr (connMatchAt_all_punct p.data hp)
    have hsplit : connectorSplit p = [p] := by
      unfold connectorSplit
      rw [hpos]
    refine renderLine_of_error B p .valueError ?_
    rw [hsp]
    exact convert_expression_one B p p hsplit

/-- Appending an all-punctuation suffix to the target half either
leaves `convertHalves` unchanged or makes both runs raise. -/
theorem convertHalves_target_append {α : Type} (B : Backend α) (l r p : String)
    (hp : ∀ c ∈ p.data, isPunctChar c = true)
    (hr : ∀ c, r.data.getLast? = some c → pyIsSpace c = false) :
    convertHalves B l (r ++ p) = convertHalves B l r ∨
    ((∃ e, convertHalves B l (r ++ p) = .error e) ∧
     (∃ e, convertHalves B l r = .error e)) := by
  by_cases hp0 : p = ""
  · left
    rw [hp0]
    simp
  · by_cases hre : pyStrip r = ""
    · have hrnil : r = "" := eq_empty_of_strip_empty r hr hre
      right
      constructor
      · refine convertHalves_error_of_punct_target B l (r ++ p) ?_
        rw [hrnil]
        have hep : ("" : String) ++ p = p := rfl
        rw [hep]
        have hsp : pyStrip p = p := by
          unfold pyStrip
          rw [listStrip_of_no_space p.data (fun c hc => punct_not_space c (hp c hc))]
        rw [hsp]
        exact hp
      · refine ⟨.valueError, ?_⟩
        rw [convertHalves_def, if_pos (Or.inr hre)]
    · have hst : pyStrip (r ++ p) = pyStrip r ++ p :=
        pyStrip_append r p hr (fun c hc => punct_not_space c (hp c hc))
      have hne2 : pyStrip r ++ p ≠ "" := by
        intro h0
        have h1 : (pyStrip r).data ++ p.data = [] := by
          have := congrArg String.data h0
          rw [String.data_append] at this
          exact this
        exact hre (string_eq_empty_of_data (pyStrip r) (List.append_eq_nil.mp h1).1)
      rw [convertHalves_def, convertHalves_def, hst]
      by_cases hl : pyStrip l = ""
      · left
        rw [if_pos (Or.inl hl), if_pos (Or.inl hl)]
      · have hc1 : ¬(pyStrip l = "" ∨ pyStrip r ++ p = "") := by
          intro h0
          rcases h0 with h0 | h0
          · exact hl h0
          · exact hne2 h0
        have hc2 : ¬(pyStrip l = "" ∨ pyStrip r = "") := by
          intro h0
          rcases h0 with h0 | h0
          · exact hl h0
          · exact hre h0
        rw [if_neg hc1, if_neg hc2]
        rcases hpi : B.parse_input (pyStrip l) with ⟨vO, uO⟩
        cases vO with
        | none => left; rfl
        | some v =>
          cases uO with
          | none => left; rfl
          | some u =>
            by_cases hv : v = ""
            · left
              simp only [if_pos hv]
            · left
              simp only [if_neg hv]
              exact convertParsed_target_append B v u (pyStrip r) p hp

/-- Appending an all-punctuation suffix to a whole line (whose own last
character is not whitespace) does not change its rendering. -/
theorem renderLine_line_append {α : Type} (B : Backend α) (line p : String)
    (hp : ∀ c ∈ p.data, isPunctChar c = true)
    (hlast : ∀ c, line.data.getLast? = some c → pyIsSpace c = false) :
    renderLine B (line ++ p) = renderLine B line := by
  by_cases hp0 : p = ""
  · rw [hp0]
    simp
  · by_cases hse : pyStrip line = ""
    · have hline : line = "" := eq_empty_of_strip_empty line hlast hse
      rw [hline]
      have hep : ("" : String) ++ p = p := rfl
      rw [hep, renderLine_of_blank B "" rfl]
      exact renderLine_all_punct B p hp
    · have he : pyStrip (line ++ p) = pyStrip line ++ p :=
        pyStrip_append line p hlast (fun c hc => punct_not_space c (hp c hc))
      have hne2 : pyStrip line ++ p ≠ "" := by
        intro h0
        have h1 : (pyStrip line).data ++ p.data = [] := by
          have := congrArg String.data h0
          rw [String.data_append] at this
          exact this
        exact hse (string_eq_empty_of_data (pyStrip line) (List.append_eq_nil.mp h1).1)
      rw [renderLine_def, renderLine_def, if_neg hse, if_neg (by rw [he]; exact hne2), he]
      cases hfp : firstConnPos (pyStrip line).data with
      | none =>
        obtain ⟨hsplit1, hsplit2⟩ := (connectorSplit_append_punct (pyStrip line) p hp).1 hfp
        rw [convert_expression_one B _ _ hsplit1, convert_expression_one B _ _ hsplit2]
      | some j =>
        obtain ⟨hsplit1, hsplit2⟩ := (connectorSplit_append_punct (pyStrip line) p hp).2 j hfp
        rw [convert_expression_two B _ _ _ hsplit1, convert_expression_two B _ _ _ hsplit2]
        have hr : ∀ c,
            (String.mk ((pyStrip line).data.drop (j+2))).data.getLast? = some c →
            pyIsSpace c = false := by
          intro c hc
          have hc2 : ((pyStrip line).data.drop (j+2)).getLast? = some c := hc
          have hlaststr : (pyStrip line).data.getLast? = some c := by
            conv_lhs => rw [← List.take_append_drop (j+2) (pyStrip line).data]
            rw [List.getLast?_append, hc2]
            rfl
          exact listStrip_last_not_space line.data c hlaststr
        rcases convertHalves_target_append B (String.mk ((pyStrip line).data.take j))
            (String.mk ((pyStrip line).data.drop (j+2))) p hp hr with
          heq | ⟨⟨e1, he1⟩, ⟨e2, he2⟩⟩
        · rw [heq]
        · rw [he1, he2]

/-- A backend whose parser appends trailing punctuation to the source
unit renders every line identically. -/
theorem renderLine_punct_unit {α : Type} (B : Backend α) (p line2 : String)
    (hp : ∀ c ∈ p.data, isPunctChar c = true) :
    renderLine (punctUnitBackend B p) line2 = renderLine B line2 := by
  rw [renderLine_def, renderLine_def]
  by_cases hs : pyStrip line2 = ""
  · rw [if_pos hs, if_pos hs]
  · rw [if_neg hs, if_neg hs]
    have hfmt : (punctUnitBackend B p).fmt = B.fmt := rfl
    have hce : convert_expression (punctUnitBackend B p) (pyStrip line2) =
        convert_expression B (pyStrip line2) := by
      cases hcs : connectorSplit (pyStrip line2) with
      | nil =>
        unfold convert_expression
        rw [hcs]
      | cons a rest =>
        cases rest with
        | nil =>
          rw [convert_expression_one _ _ a hcs, convert_expression_one _ _ a hcs]
        | cons b rest2 =>
          cases rest2 with
          | nil =>
            rw [convert_expression_two _ _ a b hcs, convert_expression_two _ _ a b hcs]
            rw [convertHalves_def, convertHalves_def]
            by_cases hab : pyStrip a = "" ∨ pyStrip b = ""
            · rw [if_pos hab, if_pos hab]
            · rw [if_neg hab, if_neg hab]
              have hpi : (punctUnitBackend B p).parse_input (pyStrip a) =
                  (match B.parse_input (pyStrip a) with
                   | (v, some u) => (v, some (u ++ p))
                   | (v, none) => (v, none)) := rfl
              rw [hpi]
              rcases hB : B.parse_input (pyStrip a) with ⟨vO, uO⟩
              cases uO with
              | none =>
                cases vO with
                | none => rfl
                | some v => rfl
              | some u =>
                cases vO with
                | none => rfl
                | some v =>
                  by_cases hv : v = ""
                  · simp only [if_pos hv]
                  · simp only [if_neg hv]
                    have h1 : convertParsed (punctUnitBackend B p) v (u ++ p) (pyStrip b) =
                        convertParsed B v (u ++ p) (pyStrip b) := rfl
                    rw [h1, convertParsed_unit_append B v u p (pyStrip b) hp]
          | cons c rest3 =>
            unfold convert_expression
            rw [hcs]
    rw [hfmt, hce]

/-- C7: appending trailing punctuation (`.`, `,`, `;`, in any number)
to the end of a line — i.e. to the target-unit text, when the line does
not end in whitespace — does not change the output line; the `rstrip`
applied to both sides makes any punctuation suffix of the target text
or of the parsed source-unit text invisible to the conversion. -/
theorem trailing_punctuation_ignored (α : Type) (B : Backend α) (line p : String)
    (hp : ∀ c ∈ p.data, isPunctChar c = true)
    (hlast : ∀ c, line.data.getLast? = some c → pyIsSpace c = false) :
    renderLine B (line ++ p) = renderLine B line ∧
    (∀ u : String, pyRstripPunct (u ++ p) = pyRstripPunct u) ∧
    (∀ line2 : String, renderLine (punctUnitBackend B p) line2 = renderLine B line2) :=
  ⟨renderLine_line_append B line p hp hlast,
   fun u => by
     unfold pyRstripPunct
     rw [String.data_append, listRstripPunct_append u.data p.data hp],
   fun line2 => renderLine_punct_unit B p line2 hp⟩

/-- Witness for C7 on the spec's own example, `"12 inches to mm."`. -/
theorem trailing_punctuation_ignored_witness :
    renderLine demoBackend ("12 inches to mm" ++ ".") =
      renderLine demoBackend "12 inches to mm" ∧
    (∀ u : String, pyRstripPunct (u ++ ".") = pyRstripPunct u) ∧
    (∀ line2 : String, renderLine (punctUnitBackend demoBackend ".") line2 =
      renderLine demoBackend line2) :=
  trailing_punctuation_ignored Nat demoBackend "12 inches to mm" "."
    (by decide)
    (by
      intro c hc
      have h2 : ("12 inches to mm" : String).data.getLast? = some 'm' := by decide
      rw [h2] at hc
      injection hc with h3
      rw [← h3]
      decide)

end PhSwitchMb
